import Mathlib

/-!
Verification development for the earring generator's vector pipeline
(`src/backend/vector_generator.py`, `src/backend/vector_exporter.py`,
`src/backend/vector_rasterizer.py`).

The Python code builds shapely geometries with a globally seeded numpy
random generator, extrudes the resulting planar region into trimesh
meshes, and rasterizes the region to a pixel preview.  We embed:

* the planar regions produced by `vector_generator.py` as a deep term
  language `Geom` (each constructor records one shapely constructor call
  with its exact rational parameters; trigonometric point placement is
  recorded symbolically as an angle index `i` out of `n`), together with a
  point-set semantics `denote` into subsets of the real plane;
* numpy's global random generator as an explicit state `Nat` threaded
  through the calls, with the concrete sampling functions abstracted into
  a structure `PyEnv` (the theorems hold for every sampler, which is
  exactly what reseeding-based determinism requires);
* shapely polygons handed to the exporter and rasterizer as explicit
  vertex rings with rational coordinates, meshes as explicit vertex/face
  lists, and PIL images as pixel-valued functions.
-/

/-- Planar geometry terms, one constructor per shapely construction used in
`vector_generator.py`.  `ptBuffer cx cy r segs` is `Point(cx, cy).buffer(r,
quad_segs=segs)`; `circPtBuffer c i n r segs` is the buffered point at polar
position `(c, 2*pi*i/n)`; `segBuffer rs re i n r segs` is the buffered
`LineString` from polar `(rs, 2*pi*i/n)` to `(re, 2*pi*i/n)` (round caps). -/
inductive Geom where
  | ptBuffer (cx cy r : ℚ) (segs : ℕ)
  | circPtBuffer (c : ℚ) (i n : ℕ) (r : ℚ) (segs : ℕ)
  | segBuffer (rs re : ℚ) (i n : ℕ) (r : ℚ) (segs : ℕ)
  | difference (a b : Geom)
  | unionAll (gs : List Geom)
  | intersection (a b : Geom)
  | buffer0 (g : Geom)

/-- Model of the ambient Python libraries: numpy's global PRNG (state is a
`Nat`; `next` returns a raw draw, `nextU` a uniform `[0,1)` sample as a
rational), Python's string `hash`, and shapely's `is_valid` test.  All
generator theorems are proved for an arbitrary `PyEnv`. -/
structure PyEnv where
  seedOf : ℕ → ℕ
  next : ℕ → ℕ × ℕ
  nextU : ℕ → ℚ × ℕ
  hashStr : String → ℤ
  isValid : Geom → Bool

/-- `np.random.choice(xs)`: pick an element using one raw draw. -/
def npChoice {α : Type} [Inhabited α] (env : PyEnv) (s : ℕ) (xs : List α) : α × ℕ :=
  let n := env.next s
  (xs.getD (n.1 % xs.length) default, n.2)

/-- `np.random.randint(lo, hi)`: uniform over `[lo, hi)` (hi exclusive). -/
def npRandint (env : PyEnv) (s : ℕ) (lo hi : ℕ) : ℕ × ℕ :=
  let n := env.next s
  (lo + n.1 % (hi - lo), n.2)

/-- `np.random.uniform(a, b)`: `a + u*(b-a)` for a unit sample `u`. -/
def npUniform (env : PyEnv) (s : ℕ) (a b : ℚ) : ℚ × ℕ :=
  let u := env.nextU s
  (a + u.1 * (b - a), u.2)

/-- The four shape families drawn by `np.random.choice(['ring', 'ray',
'petal_curve', 'dot_ring'])`. -/
inductive ShapeType where
  | ring | ray | petalCurve | dotRing
  deriving DecidableEq, Inhabited

/-- Python `int()` truncation toward zero on a rational. -/
def pyTrunc (q : ℚ) : ℤ :=
  if 0 ≤ q then ⌊q⌋ else -⌊-q⌋

/-- `quad_segs = max(16, min(32, int(diameter_mm * 1.5)))`
(`vector_generator.py` line 26). -/
def quadSegsOf (d : ℚ) : ℕ :=
  (max 16 (min 32 (pyTrunc (d * (3/2))))).toNat

/-- The border rim (lines 40-43): annulus between the boundary circle of
radius `d/2` and the circle inset by `rim_thickness = d * 0.04`. -/
def rimGeom (d : ℚ) : Geom :=
  Geom.difference (Geom.ptBuffer 0 0 (d/2) (quadSegsOf d))
    (Geom.ptBuffer 0 0 (d/2 - d * (4/100)) (quadSegsOf d))

/-- The boundary circle (line 29): `center.buffer(radius_mm, quad_segs)`. -/
def boundaryGeom (d : ℚ) : Geom :=
  Geom.ptBuffer 0 0 (d/2) (quadSegsOf d)

/-- `_create_ring` (lines 85-100): annulus at radius `U(0.1,0.9)*R`, inner
radius floored at zero; a filled disc when the inner circle has zero area. -/
def create_ring (env : PyEnv) (s : ℕ) (R th : ℚ) (segs : ℕ) : Geom × ℕ :=
  let u := npUniform env s (1/10) (9/10)
  let r := u.1 * R
  let innerR := max 0 (r - th/2)
  (if 0 < innerR then
      Geom.difference (Geom.ptBuffer 0 0 (r + th/2) segs) (Geom.ptBuffer 0 0 innerR segs)
    else Geom.ptBuffer 0 0 (r + th/2) segs, u.2)

/-- `_create_rays` (lines 103-126): `symmetry` buffered radial segments from
`U(0,0.5)*R` to `U(r_start/R+0.1, 0.95)*R` at evenly spaced angles. -/
def create_rays (env : PyEnv) (s : ℕ) (R : ℚ) (sym : ℕ) (th : ℚ) (segs : ℕ) : Geom × ℕ :=
  let u1 := npUniform env s 0 (1/2)
  let rs := u1.1 * R
  let u2 := npUniform env u1.2 (rs / R + 1/10) (19/20)
  let re := u2.1 * R
  (Geom.unionAll ((List.range sym).map fun i => Geom.segBuffer rs re i sym (th/2) segs), u2.2)

/-- `_create_petals` (lines 129-157): `symmetry` small annuli (or filled
discs) centered at polar offset `U(0.2,0.7)*R`, petal size `U(0.1,0.4)*R`. -/
def create_petals (env : PyEnv) (s : ℕ) (R : ℚ) (sym : ℕ) (th : ℚ) (segs : ℕ) : Geom × ℕ :=
  let u1 := npUniform env s (1/5) (7/10)
  let dOff := u1.1 * R
  let u2 := npUniform env u1.2 (1/10) (2/5)
  let pSize := u2.1 * R
  (Geom.unionAll ((List.range sym).map fun i =>
      let innerR := max 0 (pSize - th/2)
      if 0 < innerR then
        Geom.difference (Geom.circPtBuffer dOff i sym (pSize + th/2) segs)
          (Geom.circPtBuffer dOff i sym innerR segs)
      else Geom.circPtBuffer dOff i sym (pSize + th/2) segs), u2.2)

/-- `_create_dot_ring` (lines 160-184): solid discs at radius `U(0.3,0.8)*R`,
size `U(max(0.15,th), max(0.25,2*th))`, count `symmetry * randint(1, 2)`. -/
def create_dot_ring (env : PyEnv) (s : ℕ) (R : ℚ) (sym : ℕ) (th : ℚ) (segs : ℕ) : Geom × ℕ :=
  let u1 := npUniform env s (3/10) (4/5)
  let rDist := u1.1 * R
  let u2 := npUniform env u1.2 (max (3/20) th) (max (1/4) (th * 2))
  let k := npRandint env u2.2 1 2
  let dotCount := sym * k.1
  (Geom.unionAll ((List.range dotCount).map fun i =>
      Geom.circPtBuffer rDist i dotCount u2.1 segs), k.2)

/-- One iteration of the component loop (lines 47-63): choose a shape family,
draw the thickness `U(max(0.25, d*0.02), d*0.04)`, and run the builder. -/
def genComponent (env : PyEnv) (s : ℕ) (R d : ℚ) (sym segs : ℕ) : Geom × ℕ :=
  let st := npChoice env s [ShapeType.ring, ShapeType.ray, ShapeType.petalCurve, ShapeType.dotRing]
  let minTh : ℚ := max (1/4) (d * (2/100))
  let maxTh : ℚ := d * (4/100)
  let th := npUniform env st.2 minTh maxTh
  match st.1 with
  | ShapeType.ring => create_ring env th.2 R th.1 segs
  | ShapeType.ray => create_rays env th.2 R sym th.1 segs
  | ShapeType.petalCurve => create_petals env th.2 R sym th.1 segs
  | ShapeType.dotRing => create_dot_ring env th.2 R sym th.1 segs

/-- The component loop (lines 47-66): run `n` iterations, appending each
component that shapely reports valid to the accumulated parts list. -/
def genComponents (env : PyEnv) (R d : ℚ) (sym segs : ℕ) :
    ℕ → List Geom × ℕ → List Geom × ℕ
  | 0, acc => acc
  | n + 1, acc =>
    let c := genComponent env acc.2 R d sym segs
    genComponents env R d sym segs n
      (if env.isValid c.1 then acc.1 ++ [c.1] else acc.1, c.2)

/-- `generate_mandala_vector` up to (but not including) the final
`.intersection(boundary)` that both return paths of the source perform:
reseed from `abs(hash(seed)) % 2**32` when the seed is non-empty, draw
`symmetry` from `{6,8,12}` and `num_components` from `randint(3,6)`, build
the parts list starting from the rim, and union/repair it (lines 17-77).
The `[]` branch mirrors the source's `if not pattern_parts` fallback, which
returns the rim (intersected with the boundary by the caller below). -/
def mandalaCore (env : PyEnv) (seed : String) (d : ℚ) (s0 : ℕ) : Geom × ℕ :=
  let s := if seed = "" then s0 else env.seedOf ((env.hashStr seed).natAbs % 2 ^ 32)
  let sym := npChoice env s [6, 8, 12]
  let nc := npRandint env sym.2 3 6
  let ps := genComponents env (d/2) d sym.1 (quadSegsOf d) nc.1 ([rimGeom d], nc.2)
  match ps.1 with
  | [] => (rimGeom d, ps.2)
  | _ :: _ =>
    let combined := Geom.unionAll ps.1
    (if env.isValid combined then combined else Geom.buffer0 combined, ps.2)

/-- `generate_mandala_vector(seed, diameter_mm)` (lines 5-82).  Both return
paths of the source end in `.intersection(boundary)`, applied here to the
result of `mandalaCore`. -/
def generate_mandala_vector (env : PyEnv) (seed : String) (d : ℚ) (s0 : ℕ) : Geom × ℕ :=
  let core := mandalaCore env seed d s0
  (Geom.intersection core.1 (boundaryGeom d), core.2)

/-! ### Point-set semantics of the geometry terms

`Point(c).buffer(r)` is modelled as the closed disc of radius `r` (shapely's
polygonal approximation is contained in it); `buffer(0)` repair is
semantically transparent; set operations are the corresponding operations on
point sets. -/

/-- Closed disc centered at `c` of radius `r` (membership by squared
distance, avoiding square roots). -/
def inDisc (c : ℝ × ℝ) (r : ℝ) : Set (ℝ × ℝ) :=
  {p | (p.1 - c.1) ^ 2 + (p.2 - c.2) ^ 2 ≤ r ^ 2}

/-- Closed disc of radius `r` centered at the point with polar coordinates
`(rho, 2*pi*i/n)`. -/
def polarDisc (rho : ℝ) (i n : ℕ) (r : ℝ) : Set (ℝ × ℝ) :=
  {p | (p.1 - rho * Real.cos (2 * Real.pi * i / n)) ^ 2 +
       (p.2 - rho * Real.sin (2 * Real.pi * i / n)) ^ 2 ≤ r ^ 2}

mutual

/-- Point-set denotation of a geometry term. -/
def denote : Geom → Set (ℝ × ℝ)
  | Geom.ptBuffer cx cy r _ => inDisc ((cx : ℝ), (cy : ℝ)) (r : ℝ)
  | Geom.circPtBuffer c i n r _ => polarDisc (c : ℝ) i n (r : ℝ)
  | Geom.segBuffer rs re i n r _ =>
    {p | ∃ t : ℝ, 0 ≤ t ∧ t ≤ 1 ∧
      p ∈ polarDisc ((rs : ℝ) + t * ((re : ℝ) - (rs : ℝ))) i n (r : ℝ)}
  | Geom.difference a b => denote a \ denote b
  | Geom.unionAll gs => denoteList gs
  | Geom.intersection a b => denote a ∩ denote b
  | Geom.buffer0 g => denote g

/-- Denotation of a union's argument list. -/
def denoteList : List Geom → Set (ℝ × ℝ)
  | [] => ∅
  | g :: gs => denote g ∪ denoteList gs

end

/-- A member of a union's list contributes its whole denotation. -/
theorem denote_subset_denoteList {g : Geom} {l : List Geom} (h : g ∈ l) :
    denote g ⊆ denoteList l := by
  induction l with
  | nil => cases h
  | cons a l ih =>
    rcases List.mem_cons.mp h with h | h
    · subst h; exact fun p hp => Or.inl hp
    · exact fun p hp => Or.inr (ih h hp)

/-- `genComponents` only ever appends to the accumulated parts list. -/
theorem genComponents_prefix (env : PyEnv) (R d : ℚ) (sym segs : ℕ) :
    ∀ (n : ℕ) (parts : List Geom) (s : ℕ),
      ∃ rest, (genComponents env R d sym segs n (parts, s)).1 = parts ++ rest := by
  intro n
  induction n with
  | zero => intro parts s; exact ⟨[], by simp [genComponents]⟩
  | succ n ih =>
    intro parts s
    simp only [genComponents]
    by_cases hv : env.isValid (genComponent env s R d sym segs).1 = true
    · rcases ih (parts ++ [(genComponent env s R d sym segs).1])
        (genComponent env s R d sym segs).2 with ⟨rest, hrest⟩
      exact ⟨[(genComponent env s R d sym segs).1] ++ rest, by
        simp [hv, hrest]⟩
    · rcases ih parts (genComponent env s R d sym segs).2 with ⟨rest, hrest⟩
      exact ⟨rest, by simp [hv, hrest]⟩

/-- The rim is always among the unioned parts, so its denotation is contained
in the denotation of the combined (possibly repaired) pattern. -/
theorem rim_subset_core (env : PyEnv) (seed : String) (d : ℚ) (s0 : ℕ) :
    denote (rimGeom d) ⊆ denote (mandalaCore env seed d s0).1 := by
  unfold mandalaCore
  rcases genComponents_prefix env (d/2) d
      (npChoice env (if seed = "" then s0 else
        env.seedOf ((env.hashStr seed).natAbs % 2 ^ 32)) [6, 8, 12]).1 (quadSegsOf d)
      (npRandint env (npChoice env (if seed = "" then s0 else
        env.seedOf ((env.hashStr seed).natAbs % 2 ^ 32)) [6, 8, 12]).2 3 6).1
      [rimGeom d]
      (npRandint env (npChoice env (if seed = "" then s0 else
        env.seedOf ((env.hashStr seed).natAbs % 2 ^ 32)) [6, 8, 12]).2 3 6).2
    with ⟨rest, hrest⟩
  simp only [hrest, List.singleton_append]
  have hmem : rimGeom d ∈ rimGeom d :: rest := List.mem_cons_self _ _
  by_cases hv : env.isValid (Geom.unionAll (rimGeom d :: rest)) = true
  · simp only [hv, if_true]
    exact denote_subset_denoteList hmem
  · simp only [hv, if_false]
    show denote (rimGeom d) ⊆ denote (Geom.buffer0 (Geom.unionAll (rimGeom d :: rest)))
    simp only [denote]
    exact denote_subset_denoteList hmem

/-- Concrete sampler instance used only to witness the universally
quantified generator theorems. -/
def testEnv : PyEnv where
  seedOf := fun n => n
  next := fun s => (s, s + 1)
  nextU := fun s => (1/2, s + 1)
  hashStr := fun str => (str.length : ℤ)
  isValid := fun _ => true

/-- C1: for every non-empty seed string and positive diameter, two runs of
`generate_mandala_vector` starting from arbitrary pseudo-random generator
states return structurally equal regions, because the generator state is
reseeded from `abs(hash(seed)) % 2**32` before any random draw. -/
theorem generation_deterministic (env : PyEnv) (seed : String) (d : ℚ) (s1 s2 : ℕ)
    (hseed : seed ≠ "") (hd : 0 < d) :
    (generate_mandala_vector env seed d s1).1 = (generate_mandala_vector env seed d s2).1 := by
  simp only [generate_mandala_vector, mandalaCore, if_neg hseed]

/-- Witness for C1 at seed `"abc"`, diameter `12`, generator states `0` and
`999`. -/
theorem generation_deterministic_witness :
    "abc" ≠ "" ∧ (0 : ℚ) < 12 ∧
      (generate_mandala_vector testEnv "abc" 12 0).1 =
        (generate_mandala_vector testEnv "abc" 12 999).1 :=
  ⟨by decide, by norm_num,
    generation_deterministic testEnv "abc" 12 0 999 (by decide) (by norm_num)⟩

/-- C5: every point of the returned region (in particular every vertex of
every exterior and interior ring) lies within distance `d/2` of the origin,
because the combined pattern is intersected with the boundary circle of
radius `d/2` before being returned. -/
theorem boundary_containment (env : PyEnv) (seed : String) (d : ℚ) (s0 : ℕ) (p : ℝ × ℝ)
    (hp : p ∈ denote (generate_mandala_vector env seed d s0).1) :
    p.1 ^ 2 + p.2 ^ 2 ≤ ((d : ℝ) / 2) ^ 2 := by
  have h1 : p ∈ denote (mandalaCore env seed d s0).1 ∩ denote (boundaryGeom d) := by
    have hrw : (generate_mandala_vector env seed d s0).1 =
        Geom.intersection (mandalaCore env seed d s0).1 (boundaryGeom d) := rfl
    rw [hrw] at hp
    simpa [denote] using hp
  have h2 := h1.2
  simp only [boundaryGeom, denote, inDisc, Set.mem_setOf_eq] at h2
  push_cast at h2
  simpa using h2

/-- Witness for C5: the point `(6, 0)` of the region generated from seed
`"a"` at diameter `12` is within distance `6` of the origin. -/
theorem boundary_containment_witness :
    ((6 : ℝ), (0 : ℝ)).1 ^ 2 + ((6 : ℝ), (0 : ℝ)).2 ^ 2 ≤ (((12 : ℚ) : ℝ) / 2) ^ 2 :=
  boundary_containment testEnv "a" 12 0 (6, 0) (by
    have hrim : ((6 : ℝ), (0 : ℝ)) ∈ denote (rimGeom 12) := by
      simp only [rimGeom, denote, inDisc, Set.mem_diff, Set.mem_setOf_eq]
      norm_num
    have hcore := rim_subset_core testEnv "a" 12 0 hrim
    have hbound : ((6 : ℝ), (0 : ℝ)) ∈ denote (boundaryGeom 12) := by
      simp only [boundaryGeom, denote, inDisc, Set.mem_setOf_eq]
      norm_num
    have hrw : (generate_mandala_vector testEnv "a" 12 0).1 =
        Geom.intersection (mandalaCore testEnv "a" 12 0).1 (boundaryGeom 12) := rfl
    rw [hrw]
    simp only [denote, Set.mem_inter_iff]
    exact ⟨hcore, hbound⟩)

/-- C6: if the intersection of the repaired union with the boundary circle
were empty the function would have returned the rim intersected with the
boundary, and the returned region is non-empty whenever the rim is
non-empty.  (In the source the only fallback is guarded by the parts list
being empty, which cannot happen because the rim is always appended first;
the returned region always contains `rim ∩ boundary`, so the emptiness
antecedent is refuted outright.) -/
theorem empty_intersection_rim_fallback (env : PyEnv) (seed : String) (d : ℚ) (s0 : ℕ)
    (hd : 0 < d) :
    (denote (generate_mandala_vector env seed d s0).1 = ∅ →
        (generate_mandala_vector env seed d s0).1 =
          Geom.intersection (rimGeom d) (boundaryGeom d)) ∧
    ((denote (rimGeom d)).Nonempty →
        (denote (generate_mandala_vector env seed d s0).1).Nonempty) := by
  have hdR : (0 : ℝ) < (d : ℝ) := by exact_mod_cast hd
  have key : (((d : ℝ) / 2, (0 : ℝ))) ∈ denote (generate_mandala_vector env seed d s0).1 := by
    have hrim : (((d : ℝ) / 2, (0 : ℝ))) ∈ denote (rimGeom d) := by
      simp only [rimGeom, denote, inDisc, Set.mem_diff, Set.mem_setOf_eq]
      push_cast
      constructor
      · nlinarith
      · intro hcon
        nlinarith
    have hcore := rim_subset_core env seed d s0 hrim
    have hbound : (((d : ℝ) / 2, (0 : ℝ))) ∈ denote (boundaryGeom d) := by
      simp only [boundaryGeom, denote, inDisc, Set.mem_setOf_eq]
      push_cast
      nlinarith
    have hrw : (generate_mandala_vector env seed d s0).1 =
        Geom.intersection (mandalaCore env seed d s0).1 (boundaryGeom d) := rfl
    rw [hrw]
    simp only [denote, Set.mem_inter_iff]
    exact ⟨hcore, hbound⟩
  constructor
  · intro hemp
    exact absurd (hemp ▸ key) (Set.not_mem_empty _)
  · intro _
    exact ⟨_, key⟩

/-- Witness for C6 at seed `"xy"`, diameter `12`, generator state `0`. -/
theorem empty_intersection_rim_fallback_witness :
    (denote (generate_mandala_vector testEnv "xy" 12 0).1 = ∅ →
        (generate_mandala_vector testEnv "xy" 12 0).1 =
          Geom.intersection (rimGeom 12) (boundaryGeom 12)) ∧
    ((denote (rimGeom 12)).Nonempty →
        (denote (generate_mandala_vector testEnv "xy" 12 0).1).Nonempty) :=
  empty_intersection_rim_fallback testEnv "xy" 12 0 (by norm_num)

/-- Number of parts unioned by a `unionAll` term. -/
def unionSize : Geom → ℕ
  | Geom.unionAll gs => gs.length
  | _ => 0

/-- C8 (code evaluated at the failing behaviour): the dot-ring builder's
count is `symmetry * np.random.randint(1, 2)`, and numpy's `randint`
excludes its upper bound, so the count is always exactly `symmetry` — never
`2 * symmetry` — for every sampler and every generator state. -/
theorem dot_ring_count_always_symmetry (env : PyEnv) (s : ℕ) (R : ℚ) (sym : ℕ) (th : ℚ)
    (segs : ℕ) : unionSize (create_dot_ring env s R sym th segs).1 = sym := by
  simp [create_dot_ring, npRandint, unionSize, Nat.mod_one]

/-! ### The exporter's data model (`vector_exporter.py`)

Shapely polygons are embedded as explicit coordinate rings (closed lists,
first point repeated last, as `shapely .coords` exposes them); trimesh
meshes as explicit vertex/face lists with rational coordinates.  The one
external geometric operation whose output the exporter consumes,
`polygon.buffer(-inset)`, is abstracted into a structure `ShapelyOps`; the
exporter theorems hold for every such operation. -/

/-- A 2D coordinate in millimeters. -/
abbrev Pt := ℚ × ℚ

/-- A mesh vertex. -/
structure V3 where
  x : ℚ
  y : ℚ
  z : ℚ
  deriving DecidableEq

/-- A trimesh `Trimesh`: vertex list plus triangular faces given as index
triples. -/
structure Mesh where
  vertices : List V3
  faces : List (ℕ × ℕ × ℕ)
  deriving DecidableEq

/-- `mesh.apply_translation([tx, ty, tz])`. -/
def Mesh.translate (m : Mesh) (tx ty tz : ℚ) : Mesh :=
  ⟨m.vertices.map (fun v => ⟨v.x + tx, v.y + ty, v.z + tz⟩), m.faces⟩

/-- `mesh.fix_normals()`: reorients faces for outward consistency; the
vertex list is unchanged, which is all the claims below inspect. -/
def Mesh.fixNormals (m : Mesh) : Mesh := m

/-- `trimesh.util.concatenate` of two meshes: vertex lists appended, face
indices of the second mesh shifted. -/
def trimeshConcatenate (a b : Mesh) : Mesh :=
  ⟨a.vertices ++ b.vertices,
    a.faces ++ b.faces.map fun f =>
      (f.1 + a.vertices.length, f.2.1 + a.vertices.length, f.2.2 + a.vertices.length)⟩

/-- `trimesh.util.concatenate` of a mesh list. -/
def concatList (ms : List Mesh) : Mesh :=
  ms.foldl trimeshConcatenate ⟨[], []⟩

/-- The faces of `_manual_extrude_polygon` (lines 282-299): two side
triangles per edge, fan-triangulated bottom and top caps. -/
def prismFaces (n : ℕ) : List (ℕ × ℕ × ℕ) :=
  ((List.range n).map fun i => [(i, i + n, (i + 1) % n), ((i + 1) % n, i + n, (i + 1) % n + n)]).flatten
    ++ ((List.range (n - 2)).map fun i => (0, i + 2, i + 1))
    ++ ((List.range (n - 2)).map fun i => (n, n + i + 1, n + i + 2))

/-- Straight extrusion of one ring: the ring's points duplicated at `z = 0`
and `z = h` (the vertex layout of `_manual_extrude_polygon`, lines 271-279,
and of each ring in `trimesh.creation.extrude_polygon`). -/
def prism (pts : List Pt) (h : ℚ) : Mesh :=
  ⟨pts.map (fun c => ⟨c.1, c.2, 0⟩) ++ pts.map (fun c => ⟨c.1, c.2, h⟩),
    prismFaces pts.length⟩

/-- A shapely `Polygon`: closed exterior ring and closed interior rings. -/
structure Polygon where
  exterior : List Pt
  interiors : List (List Pt)
  deriving DecidableEq

/-- `polygon.is_empty`. -/
def Polygon.isEmpty (p : Polygon) : Bool := p.exterior.isEmpty

/-- Shoelace sum over the consecutive edges of a closed ring. -/
def sumEdges (l : List Pt) : ℚ :=
  ((l.zip l.tail).map fun e => e.1.1 * e.2.2 - e.2.1 * e.1.2).sum

/-- Absolute value on ℚ, written out so that it evaluates by kernel
reduction. -/
def rabs (q : ℚ) : ℚ := if q < 0 then -q else q

/-- Unsigned area enclosed by a closed ring. -/
def ringArea (l : List Pt) : ℚ := rabs (sumEdges l) / 2

/-- `polygon.area`: exterior area minus hole areas. -/
def Polygon.area (p : Polygon) : ℚ := ringArea p.exterior - (p.interiors.map ringArea).sum

/-- A shapely geometry as received by the exporter and rasterizer: a
`Polygon`, a `MultiPolygon`, or some other/unsupported geometry type. -/
inductive Geometry where
  | poly (p : Polygon)
  | multi (ps : List Polygon)
  | other

/-- `geometry.is_empty`. -/
def Geometry.isEmpty : Geometry → Bool
  | .poly p => p.isEmpty
  | .multi ps => ps.all (·.isEmpty)
  | .other => true

/-- `geometry.area`. -/
def Geometry.area : Geometry → ℚ
  | .poly p => p.area
  | .multi ps => (ps.map Polygon.area).sum
  | .other => 0

/-- The shapely operation the exporter consumes but does not define:
`polygon.buffer(-inset)`, which may return a (possibly empty) `Polygon` or
a `MultiPolygon`.  The exporter theorems are proved for every such
operation. -/
structure ShapelyOps where
  bufferNeg : Polygon → ℚ → Geometry

/-- `trimesh.creation.extrude_polygon` (the `try` branch of
`_extrude_single_polygon`, lines 250-252): fails when the polygon cannot be
triangulated (degenerate exterior); otherwise every ring is extruded between
`z = 0` and `z = h`. -/
def trimesh_extrude_polygon (p : Polygon) (h : ℚ) : Except String Mesh :=
  if p.exterior.dropLast.length < 3 then .error "triangulation failed"
  else .ok (concatList (prism p.exterior.dropLast h :: p.interiors.map fun r => prism r.dropLast h))

/-- `_manual_extrude_polygon` (lines 259-306): extrude the exterior ring
only (`coords[:-1]`), side quads plus fan caps, then `fix_normals`. -/
def manual_extrude_polygon (p : Polygon) (h : ℚ) : Mesh :=
  (prism p.exterior.dropLast h).fixNormals

/-- `_extrude_single_polygon` (lines 234-256): raise on empty or zero-area
input, try the trimesh extrusion, fall back to the manual extrusion. -/
def extrude_single_polygon (p : Polygon) (h : ℚ) : Except String Mesh :=
  if p.isEmpty = true ∨ p.area = 0 then .error "Cannot extrude empty or zero-area polygon"
  else
    match trimesh_extrude_polygon p h with
    | .ok m => .ok m
    | .error _ => .ok (manual_extrude_polygon p h)

/-- `_create_tapered_section` (lines 168-199): reads
`top_polygon.exterior.coords` (an `AttributeError` when the inset returned a
`MultiPolygon`), but then — as the source comments admit — simply re-extrudes
the *bottom* polygon over `[z_bottom, z_top]`; the top outline is never used
for the walls. -/
def create_tapered_section (bottom : Polygon) (top : Geometry) (zB zT : ℚ) :
    Except String Mesh :=
  match top with
  | .poly _ =>
    (match extrude_single_polygon bottom (zT - zB) with
      | .ok m => .ok (m.translate 0 0 zB)
      | .error e => .error e)
  | _ => .error "AttributeError: no attribute exterior"

/-- `_extrude_with_chamfer_single` (lines 119-165): inset the top outline by
`chamfer_height/2`; fall back to a plain extrusion when the inset is empty
or lost more than 90% of the area; otherwise extrude the main body to
`height - chamfer_height` and concatenate the tapered section, degrading to
the main body alone if the tapered section fails. -/
def extrude_with_chamfer_single (ops : ShapelyOps) (p : Polygon) (h c : ℚ) :
    Except String Mesh :=
  let inset := c * (1/2)
  let top := ops.bufferNeg p inset
  if top.isEmpty = true ∨ top.area < p.area * (1/10) then
    extrude_single_polygon p h
  else
    match extrude_single_polygon p (h - c) with
    | .error e => .error e
    | .ok mainMesh =>
      match create_tapered_section p top (h - c) h with
      | .ok ch => .ok ((trimeshConcatenate mainMesh ch).fixNormals)
      | .error _ => .ok mainMesh

/-- `extrude_polygon` (lines 202-231): extrude each non-empty positive-area
part of a `MultiPolygon`, skipping parts that fail; raise when no part
succeeded. -/
def extrude_polygon (g : Geometry) (h : ℚ) : Except String Mesh :=
  match g with
  | .multi ps =>
    if (ps.filterMap fun p =>
        if p.isEmpty = false ∧ 0 < p.area then
          (extrude_single_polygon p h).toOption
        else none).isEmpty then
      .error "No valid polygons could be extruded"
    else
      .ok (concatList (ps.filterMap fun p =>
        if p.isEmpty = false ∧ 0 < p.area then
          (extrude_single_polygon p h).toOption
        else none))
  | .poly p => extrude_single_polygon p h
  | .other => .error "unsupported geometry type"

/-- `extrude_polygon_with_chamfer` (lines 84-116): out-of-range chamfer
parameters divert to the plain extrusion before anything else; otherwise
each part is chamfer-extruded, failing parts skipped. -/
def extrude_polygon_with_chamfer (ops : ShapelyOps) (g : Geometry) (h c : ℚ) :
    Except String Mesh :=
  if c ≤ 0 ∨ h ≤ c then extrude_polygon g h
  else
    match g with
    | .multi ps =>
      if (ps.filterMap fun p =>
          if p.isEmpty = false ∧ 0 < p.area then
            (extrude_with_chamfer_single ops p h c).toOption
          else none).isEmpty then
        .error "No valid polygons could be extruded"
      else
        .ok (concatList (ps.filterMap fun p =>
          if p.isEmpty = false ∧ 0 < p.area then
            (extrude_with_chamfer_single ops p h c).toOption
          else none))
    | .poly p => extrude_with_chamfer_single ops p h c
    | .other => .error "unsupported geometry type"

/-- Rational point on the circle of radius `r` (tangent-half-angle
parameterization): a computable stand-in for trimesh's trigonometric vertex
placement on the base cylinder, whose exact angular positions none of the
claims inspect. -/
def circleRat (i n : ℕ) (r : ℚ) : Pt :=
  let t : ℚ := (i : ℚ) / (n : ℚ)
  (r * (1 - t ^ 2) / (1 + t ^ 2), r * (2 * t) / (1 + t ^ 2))

/-- `trimesh.creation.cylinder(radius, height, sections)`: a cylinder
centered at the origin, vertices on the two rim circles at `z = ±h/2` (plus
the two cap centers). -/
def trimesh_cylinder (r h : ℚ) (sections : ℕ) : Mesh :=
  ⟨((List.range sections).map fun i =>
        ⟨(circleRat i sections r).1, (circleRat i sections r).2, -(h / 2)⟩)
      ++ ((List.range sections).map fun i =>
        ⟨(circleRat i sections r).1, (circleRat i sections r).2, h / 2⟩)
      ++ [⟨0, 0, -(h / 2)⟩, ⟨0, 0, h / 2⟩],
    prismFaces sections⟩

/-- The named mesh collection returned by `create_stls_from_vector`
(`"Base_Scheibe"` and `"Muster_Relief"`). -/
structure Scene where
  base : Mesh
  relief : Mesh

/-- `create_stls_from_vector` (lines 5-81): base cylinder translated so its
top face is at `z = 0`; relief extruded with chamfer, falling back to the
plain extrusion and then to a flat disc; watertightness repair
(`fill_holes`/`fix_normals`) keeps the vertex list; finally the relief is
sunk by `0.05` into the base. -/
def create_stls_from_vector (ops : ShapelyOps) (g : Geometry) (d baseH reliefH c : ℚ) :
    Scene :=
  let R := d / 2
  let baseMesh := (trimesh_cylinder R baseH 128).translate 0 0 (-(baseH / 2))
  let relief :=
    match extrude_polygon_with_chamfer ops g reliefH c with
    | .ok m => m
    | .error _ =>
      match extrude_polygon g reliefH with
      | .ok m => m
      | .error _ => (trimesh_cylinder R reliefH 128).translate 0 0 (reliefH / 2)
  let relief := relief.fixNormals
  let relief := relief.translate 0 0 (-(1/20))
  ⟨baseMesh, relief⟩

/-- The z-coordinates of a mesh's vertices. -/
def Mesh.zs (m : Mesh) : List ℚ := m.vertices.map V3.z

/-- A mesh that sits on the plane `z = 0`: some vertex at `z = 0` and no
vertex below it. -/
def ZOK (m : Mesh) : Prop := (0 : ℚ) ∈ m.zs ∧ ∀ z ∈ m.zs, 0 ≤ z

theorem trimeshConcatenate_zs (a b : Mesh) :
    (trimeshConcatenate a b).zs = a.zs ++ b.zs := by
  simp [trimeshConcatenate, Mesh.zs]

theorem concatList_zs (ms : List Mesh) :
    (concatList ms).zs = (ms.map Mesh.zs).flatten := by
  suffices h : ∀ acc : Mesh,
      (ms.foldl trimeshConcatenate acc).zs = acc.zs ++ (ms.map Mesh.zs).flatten by
    simpa [Mesh.zs] using h ⟨[], []⟩
  induction ms with
  | nil => intro acc; simp [concatList]
  | cons m ms ih =>
    intro acc
    simp [List.foldl_cons, ih, trimeshConcatenate_zs]

theorem translate_zs (m : Mesh) (tx ty tz : ℚ) :
    (m.translate tx ty tz).zs = m.zs.map (· + tz) := by
  simp only [Mesh.translate, Mesh.zs, List.map_map]
  rfl

theorem prism_zs_mem {pts : List Pt} {h z : ℚ} (hz : z ∈ (prism pts h).zs) :
    z = 0 ∨ z = h := by
  simp only [prism, Mesh.zs, List.map_append, List.map_map, List.mem_append,
    List.mem_map, Function.comp] at hz
  rcases hz with ⟨a, -, ha⟩ | ⟨a, -, ha⟩
  · exact Or.inl ha.symm
  · exact Or.inr ha.symm

theorem prism_zero_mem {pts : List Pt} (h : ℚ) (hne : pts ≠ []) :
    (0 : ℚ) ∈ (prism pts h).zs := by
  rcases List.exists_mem_of_ne_nil pts hne with ⟨a, ha⟩
  simp only [prism, Mesh.zs, List.map_append, List.map_map, List.mem_append,
    List.mem_map, Function.comp]
  exact Or.inl ⟨a, ha, by trivial⟩

theorem rabs_nonneg (q : ℚ) : 0 ≤ rabs q := by
  unfold rabs
  split
  · linarith
  · linarith

theorem ringArea_nonneg (l : List Pt) : 0 ≤ ringArea l := by
  unfold ringArea
  have := rabs_nonneg (sumEdges l)
  linarith

theorem ringArea_pos_of_area_pos {p : Polygon} (hp : 0 < p.area) :
    0 < ringArea p.exterior := by
  have hsum : 0 ≤ (p.interiors.map ringArea).sum := by
    apply List.sum_nonneg
    intro x hx
    rcases List.mem_map.mp hx with ⟨r, -, rfl⟩
    exact ringArea_nonneg r
  unfold Polygon.area at hp
  linarith

theorem two_le_length_of_ringArea_pos {l : List Pt} (hl : 0 < ringArea l) :
    2 ≤ l.length := by
  rcases l with - | ⟨a, t⟩
  · norm_num [ringArea, rabs, sumEdges] at hl
  · rcases t with - | ⟨b, t2⟩
    · norm_num [ringArea, rabs, sumEdges] at hl
    · simp only [List.length_cons]
      omega

theorem dropLast_ne_nil_of_two_le {l : List Pt} (hl : 2 ≤ l.length) :
    l.dropLast ≠ [] := by
  have hlen := List.length_dropLast l
  intro hcon
  rw [hcon] at hlen
  simp at hlen
  omega

theorem isEmpty_false_of_area_pos {p : Polygon} (hp : 0 < p.area) :
    p.isEmpty = false := by
  have := two_le_length_of_ringArea_pos (ringArea_pos_of_area_pos hp)
  unfold Polygon.isEmpty
  rcases hext : p.exterior with - | ⟨a, t⟩
  · rw [hext] at this; simp at this
  · simp

theorem concatList_ZOK {ms : List Mesh} {m0 : Mesh} (hm0 : m0 ∈ ms)
    (h0 : (0 : ℚ) ∈ m0.zs) (hall : ∀ m ∈ ms, ∀ z ∈ m.zs, 0 ≤ z) :
    ZOK (concatList ms) := by
  constructor
  · rw [concatList_zs]
    exact List.mem_flatten.mpr ⟨m0.zs, List.mem_map.mpr ⟨m0, hm0, rfl⟩, h0⟩
  · intro z hz
    rw [concatList_zs] at hz
    rcases List.mem_flatten.mp hz with ⟨zsl, hzsl, hzm⟩
    rcases List.mem_map.mp hzsl with ⟨m, hm, rfl⟩
    exact hall m hm z hzm

theorem extrude_single_ok {p : Polygon} {h : ℚ} (hA : 0 < p.area) (hh : 0 ≤ h) :
    ∃ m, extrude_single_polygon p h = .ok m ∧ ZOK m := by
  have hring : 0 < ringArea p.exterior := ringArea_pos_of_area_pos hA
  have hlen : 2 ≤ p.exterior.length := two_le_length_of_ringArea_pos hring
  have hne : p.exterior.dropLast ≠ [] := dropLast_ne_nil_of_two_le hlen
  have hempty : p.isEmpty = false := isEmpty_false_of_area_pos hA
  have hguard : ¬(p.isEmpty = true ∨ p.area = 0) := by
    rintro (hcon | hcon)
    · rw [hempty] at hcon; cases hcon
    · exact absurd hcon (ne_of_gt hA)
  unfold extrude_single_polygon
  rw [if_neg hguard]
  unfold trimesh_extrude_polygon
  by_cases htri : p.exterior.dropLast.length < 3
  · rw [if_pos htri]
    refine ⟨_, rfl, prism_zero_mem h hne, ?_⟩
    intro z hz
    rcases prism_zs_mem hz with rfl | rfl
    · exact le_refl 0
    · exact hh
  · rw [if_neg htri]
    refine ⟨_, rfl, ?_⟩
    apply concatList_ZOK (List.mem_cons_self _ _) (prism_zero_mem h hne)
    intro m hm z hz
    rcases List.mem_cons.mp hm with rfl | hm2
    · rcases prism_zs_mem hz with rfl | rfl
      · exact le_refl 0
      · exact hh
    · rcases List.mem_map.mp hm2 with ⟨r, -, rfl⟩
      rcases prism_zs_mem hz with rfl | rfl
      · exact le_refl 0
      · exact hh

theorem extrude_with_chamfer_single_ok (ops : ShapelyOps) {p : Polygon} {h c : ℚ}
    (hA : 0 < p.area) (hc : 0 ≤ c) (hch : c ≤ h) :
    ∃ m, extrude_with_chamfer_single ops p h c = .ok m ∧ ZOK m := by
  have hh : 0 ≤ h := le_trans hc hch
  unfold extrude_with_chamfer_single
  by_cases hguard : (ops.bufferNeg p (c * (1/2))).isEmpty = true ∨
      (ops.bufferNeg p (c * (1/2))).area < p.area * (1/10)
  · rw [if_pos hguard]
    exact extrude_single_ok hA hh
  · rw [if_neg hguard]
    rcases extrude_single_ok (h := h - c) hA (by linarith) with ⟨mm, hmm, hZ⟩
    rw [hmm]
    rcases htop : ops.bufferNeg p (c * (1/2)) with p2 | ps | -
    · -- inset returned a Polygon: the tapered section succeeds and is the
      -- bottom outline re-extruded over [h - c, h]
      rcases extrude_single_ok (h := c) hA hc with ⟨m2, hm2, hZ2⟩
      have htap : create_tapered_section p (Geometry.poly p2) (h - c) h =
          .ok (m2.translate 0 0 (h - c)) := by
        unfold create_tapered_section
        rw [show h - (h - c) = c by ring, hm2]
      rw [htap]
      refine ⟨_, rfl, ?_⟩
      constructor
      · show (0 : ℚ) ∈ (trimeshConcatenate mm (m2.translate 0 0 (h - c))).zs
        rw [trimeshConcatenate_zs]
        exact List.mem_append.mpr (Or.inl hZ.1)
      · intro z hz
        rw [show ((trimeshConcatenate mm (m2.translate 0 0 (h - c))).fixNormals).zs
            = (trimeshConcatenate mm (m2.translate 0 0 (h - c))).zs from rfl,
          trimeshConcatenate_zs] at hz
        rcases List.mem_append.mp hz with hz1 | hz2
        · exact hZ.2 z hz1
        · rw [translate_zs] at hz2
          rcases List.mem_map.mp hz2 with ⟨z0, hz0, rfl⟩
          have := hZ2.2 z0 hz0
          linarith
    · -- inset returned a MultiPolygon: accessing `.exterior` raises, the
      -- except branch returns the main body alone
      exact ⟨mm, rfl, hZ⟩
    · -- some other geometry from the inset: the same except branch
      exact ⟨mm, rfl, hZ⟩

/-- The claims' hypothesis on the exporter's input: a valid non-empty
`Polygon` or `MultiPolygon` with positive area (for a `MultiPolygon`, some
part with positive area). -/
def GeometryOK : Geometry → Prop
  | .poly p => 0 < p.area
  | .multi ps => ∃ p ∈ ps, 0 < p.area
  | .other => False

theorem multi_meshes_ok {ps : List Polygon} {f : Polygon → Except String Mesh}
    (hf : ∀ p, 0 < p.area → ∃ m, f p = .ok m ∧ ZOK m)
    (hex : ∃ p ∈ ps, 0 < p.area) :
    (ps.filterMap fun p =>
        if p.isEmpty = false ∧ 0 < p.area then (f p).toOption else none).isEmpty = false ∧
    ZOK (concatList (ps.filterMap fun p =>
        if p.isEmpty = false ∧ 0 < p.area then (f p).toOption else none)) := by
  rcases hex with ⟨p0, hp0, hA0⟩
  rcases hf p0 hA0 with ⟨m0, hm0, hZ0⟩
  have hcond0 : p0.isEmpty = false ∧ 0 < p0.area := ⟨isEmpty_false_of_area_pos hA0, hA0⟩
  have hm0mem : m0 ∈ ps.filterMap fun p =>
      if p.isEmpty = false ∧ 0 < p.area then (f p).toOption else none := by
    apply List.mem_filterMap.mpr
    exact ⟨p0, hp0, by rw [if_pos hcond0, hm0]; rfl⟩
  have hallZ : ∀ m ∈ (ps.filterMap fun p =>
      if p.isEmpty = false ∧ 0 < p.area then (f p).toOption else none), ZOK m := by
    intro m hm
    rcases List.mem_filterMap.mp hm with ⟨p, -, heq⟩
    by_cases hcond : p.isEmpty = false ∧ 0 < p.area
    · rw [if_pos hcond] at heq
      rcases hf p hcond.2 with ⟨m', hm', hZ'⟩
      rw [hm'] at heq
      cases heq
      exact hZ'
    · rw [if_neg hcond] at heq
      cases heq
  constructor
  · cases hlist : ps.filterMap fun p =>
        if p.isEmpty = false ∧ 0 < p.area then (f p).toOption else none with
    | nil => rw [hlist] at hm0mem; cases hm0mem
    | cons a t => simp
  · exact concatList_ZOK hm0mem hZ0.1 (fun m hm z hz => (hallZ m hm).2 z hz)

theorem extrude_polygon_ok {g : Geometry} {h : ℚ} (hg : GeometryOK g) (hh : 0 ≤ h) :
    ∃ m, extrude_polygon g h = .ok m ∧ ZOK m := by
  rcases g with p | ps
  · exact extrude_single_ok hg hh
  · rcases multi_meshes_ok (f := fun p => extrude_single_polygon p h)
        (fun p hp => extrude_single_ok hp hh) hg with ⟨hne, hZ⟩
    simp only [extrude_polygon]
    rw [hne]
    exact ⟨_, by simp, hZ⟩
  · exact absurd hg id

theorem extrude_polygon_with_chamfer_ok (ops : ShapelyOps) {g : Geometry} {h c : ℚ}
    (hg : GeometryOK g) (hh : 0 ≤ h) :
    ∃ m, extrude_polygon_with_chamfer ops g h c = .ok m ∧ ZOK m := by
  unfold extrude_polygon_with_chamfer
  by_cases hb : c ≤ 0 ∨ h ≤ c
  · rw [if_pos hb]
    exact extrude_polygon_ok hg hh
  · rw [if_neg hb]
    push_neg at hb
    rcases g with p | ps
    · exact extrude_with_chamfer_single_ok ops hg (le_of_lt hb.1) (le_of_lt hb.2)
    · rcases multi_meshes_ok (f := fun p => extrude_with_chamfer_single ops p h c)
          (fun p hp => extrude_with_chamfer_single_ok ops hp (le_of_lt hb.1) (le_of_lt hb.2))
          hg with ⟨hne, hZ⟩
      refine ⟨_, ?_, hZ⟩
      simp [hne]
    · exact absurd hg id

/-- A concrete 4x4 square region (closed ring, as shapely exposes it). -/
def sqRing : List Pt := [(0, 0), (4, 0), (4, 4), (0, 4), (0, 0)]

/-- The square as a shapely `Polygon`. -/
def sqPolygon : Polygon := ⟨sqRing, []⟩

/-- The square inset inward by `1/4` on each side — what
`polygon.buffer(-0.25)` returns for the square above. -/
def insetSqRing : List Pt :=
  [(1/4, 1/4), (15/4, 1/4), (15/4, 15/4), (1/4, 15/4), (1/4, 1/4)]

/-- Concrete inset operation used to instantiate the exporter theorems:
shrinking the test square by the requested inset. -/
def testOps : ShapelyOps := ⟨fun _ _ => Geometry.poly ⟨insetSqRing, []⟩⟩

/-- The test square has positive area, so it satisfies the exporter claims'
input hypothesis. -/
theorem sqPolygon_ok : GeometryOK (Geometry.poly sqPolygon) := by
  show (0 : ℚ) < sqPolygon.area
  norm_num [Polygon.area, ringArea, rabs, sumEdges, sqPolygon, sqRing]

/-- C2: for every valid non-empty region (Polygon or MultiPolygon with
positive area) and every positive relief height,
`extrude_polygon_with_chamfer` never raises and returns a mesh. -/
theorem extrude_with_chamfer_total (ops : ShapelyOps) (g : Geometry) (h c : ℚ)
    (hg : GeometryOK g) (hh : 0 < h) :
    ∃ m, extrude_polygon_with_chamfer ops g h c = Except.ok m := by
  rcases extrude_polygon_with_chamfer_ok ops hg (le_of_lt hh) with ⟨m, hm, -⟩
  exact ⟨m, hm⟩

/-- Witness for C2: the test square extruded to height 1 with the default
chamfer height 0.15. -/
theorem extrude_with_chamfer_total_witness :
    GeometryOK (Geometry.poly sqPolygon) ∧ (0 : ℚ) < 1 ∧
      ∃ m, extrude_polygon_with_chamfer testOps (Geometry.poly sqPolygon) 1 (3/20) =
        Except.ok m :=
  ⟨sqPolygon_ok, by norm_num,
    extrude_with_chamfer_total testOps (Geometry.poly sqPolygon) 1 (3/20)
      sqPolygon_ok (by norm_num)⟩

/-- C4: with `chamfer_height <= 0` or `chamfer_height >= height`,
`extrude_polygon_with_chamfer` returns exactly the plain (tier 2)
extrusion; the chamfered tier-1 path is never taken. -/
theorem chamfer_bounds_plain_extrusion (ops : ShapelyOps) (g : Geometry) (h c : ℚ)
    (hb : c ≤ 0 ∨ h ≤ c) :
    extrude_polygon_with_chamfer ops g h c = extrude_polygon g h := by
  unfold extrude_polygon_with_chamfer
  rw [if_pos hb]

/-- Witness for C4: chamfer height 0 on the test square. -/
theorem chamfer_bounds_plain_extrusion_witness :
    ((0 : ℚ) ≤ 0 ∨ (1 : ℚ) ≤ 0) ∧
      extrude_polygon_with_chamfer testOps (Geometry.poly sqPolygon) 1 0 =
        extrude_polygon (Geometry.poly sqPolygon) 1 :=
  ⟨Or.inl le_rfl,
    chamfer_bounds_plain_extrusion testOps (Geometry.poly sqPolygon) 1 0 (Or.inl le_rfl)⟩

/-- The XY-projections of a mesh's vertices lying at height `zt`. -/
def topOutline (m : Mesh) (zt : ℚ) : List Pt :=
  (m.vertices.filter fun v => if v.z = zt then true else false).map fun v => (v.x, v.y)

/-- C3, evaluated at the failing input (the 4x4 square, height 1, chamfer
height 1/2): the chamfered extrusion succeeds, but every vertex of the
chamfer band's top (z = 1) lies on the ORIGINAL outline — the outline inset
by `c/2 = 1/4` (corner `(1/4, 1/4)`) appears nowhere, so the upper section's
side wall is vertical rather than a bevel between the two outlines. -/
theorem chamfer_band_is_vertical_extrusion :
    (extrude_with_chamfer_single testOps sqPolygon 1 (1/2)).toOption.isSome = true ∧
      topOutline
        ((extrude_with_chamfer_single testOps sqPolygon 1 (1/2)).toOption.getD ⟨[], []⟩) 1 =
        [(0, 0), (4, 0), (4, 4), (0, 4)] ∧
      ¬((1/4, 1/4) ∈ topOutline
        ((extrude_with_chamfer_single testOps sqPolygon 1 (1/2)).toOption.getD ⟨[], []⟩) 1) := by
  have hres : extrude_with_chamfer_single testOps sqPolygon 1 (1/2) =
      Except.ok ((trimeshConcatenate (concatList [prism (sqRing.dropLast) (1/2)])
        ((concatList [prism (sqRing.dropLast) (1/2)]).translate 0 0 (1/2))).fixNormals) := by
    norm_num [extrude_with_chamfer_single, extrude_single_polygon, trimesh_extrude_polygon,
      create_tapered_section, testOps, sqPolygon, Polygon.area, Polygon.isEmpty,
      Geometry.isEmpty, Geometry.area, ringArea, rabs, sumEdges, sqRing, insetSqRing,
      List.dropLast]
  rw [hres]
  refine ⟨rfl, ?_, ?_⟩ <;>
    norm_num [topOutline, trimeshConcatenate, concatList, prism, prismFaces, Mesh.translate,
      Mesh.fixNormals, sqRing, List.dropLast, List.filter]

theorem cylinder_zs_mem {r h z : ℚ} {n : ℕ} (hz : z ∈ (trimesh_cylinder r h n).zs) :
    z = -(h/2) ∨ z = h/2 := by
  simp only [trimesh_cylinder, Mesh.zs, List.map_append, List.map_map, List.mem_append,
    List.mem_map, Function.comp, List.mem_cons, List.mem_singleton, List.map_cons,
    List.map_nil, List.not_mem_nil, or_false] at hz
  rcases hz with (⟨a, -, ha⟩ | ⟨a, -, ha⟩) | ha | ha
  all_goals first
    | exact Or.inl ha
    | exact Or.inr ha
    | exact Or.inl ha.symm
    | exact Or.inr ha.symm

theorem cylinder_top_mem (r h : ℚ) (n : ℕ) : (h/2) ∈ (trimesh_cylinder r h n).zs := by
  simp [trimesh_cylinder, Mesh.zs]

/-- C7: in the assembled scene the base disc's top face sits at `z = 0` and
the relief is translated down by exactly `0.05`, so the relief's lowest
z-coordinate `-0.05` is strictly below the base's top z-coordinate `0`,
giving a guaranteed vertical overlap of `0.05` mm. -/
theorem relief_base_fusion_overlap (ops : ShapelyOps) (g : Geometry) (d baseH reliefH c : ℚ)
    (hg : GeometryOK g) (hb : 0 < baseH) (hr : 0 < reliefH) :
    ((0 : ℚ) ∈ (create_stls_from_vector ops g d baseH reliefH c).base.zs ∧
        ∀ z ∈ (create_stls_from_vector ops g d baseH reliefH c).base.zs, z ≤ 0) ∧
      ((-(1/20) : ℚ) ∈ (create_stls_from_vector ops g d baseH reliefH c).relief.zs ∧
        ∀ z ∈ (create_stls_from_vector ops g d baseH reliefH c).relief.zs, -(1/20) ≤ z) ∧
      (-(1/20) : ℚ) < 0 := by
  rcases extrude_polygon_with_chamfer_ok ops (g := g) (h := reliefH) (c := c) hg
    (le_of_lt hr) with ⟨m, hm, hZ⟩
  simp only [create_stls_from_vector, hm]
  refine ⟨⟨?_, ?_⟩, ⟨?_, ?_⟩, by norm_num⟩
  · rw [translate_zs]
    exact List.mem_map.mpr ⟨baseH/2, cylinder_top_mem _ _ _, by ring⟩
  · intro z hz
    rw [translate_zs] at hz
    rcases List.mem_map.mp hz with ⟨z0, hz0, rfl⟩
    rcases cylinder_zs_mem hz0 with rfl | rfl
    · linarith
    · linarith
  · rw [translate_zs]
    exact List.mem_map.mpr ⟨0, hZ.1, by ring⟩
  · intro z hz
    rw [translate_zs] at hz
    rcases List.mem_map.mp hz with ⟨z0, hz0, rfl⟩
    have := hZ.2 z0 hz0
    linarith

/-- Witness for C7: the test square at diameter 12, base height 1, relief
height 1, chamfer height 0.15. -/
theorem relief_base_fusion_overlap_witness :
    ((0 : ℚ) ∈ (create_stls_from_vector testOps (Geometry.poly sqPolygon)
          12 1 1 (3/20)).base.zs ∧
        ∀ z ∈ (create_stls_from_vector testOps (Geometry.poly sqPolygon)
          12 1 1 (3/20)).base.zs, z ≤ 0) ∧
      ((-(1/20) : ℚ) ∈ (create_stls_from_vector testOps (Geometry.poly sqPolygon)
          12 1 1 (3/20)).relief.zs ∧
        ∀ z ∈ (create_stls_from_vector testOps (Geometry.poly sqPolygon)
          12 1 1 (3/20)).relief.zs, -(1/20) ≤ z) ∧
      (-(1/20) : ℚ) < 0 :=
  relief_base_fusion_overlap testOps (Geometry.poly sqPolygon) 12 1 1 (3/20)
    sqPolygon_ok (by norm_num) (by norm_num)

/-! ### The rasterizer (`vector_rasterizer.py`)

The PIL image is a pixel-valued function; `ImageDraw.polygon(xy, fill=v)`
is modelled as setting every pixel covered by the ring (even-odd test) to
`v`.  The `try/except` around one polygon's drawing is modelled by the one
condition under which PIL's `polygon` raises: a coordinate list with fewer
than two points; a failure keeps the fills already applied and moves on to
the next part. -/

/-- A grayscale image: value of each pixel. -/
def Img : Type := ℕ × ℕ → ℕ

/-- `Image.new("L", (resolution, resolution), 0)`: all background. -/
def blankImage : Img := fun _ => 0

/-- `scale = (resolution / 2) / radius_mm` (line 26). -/
def rasterScale (d : ℚ) (res : ℕ) : ℚ := ((res : ℚ) / 2) / (d / 2)

/-- `offset = resolution / 2` (line 27). -/
def rasterOffset (res : ℕ) : ℚ := (res : ℚ) / 2

/-- `transform_coords` on one coordinate pair (lines 29-31):
`(x * scale + offset, y * scale + offset)`. -/
def transformPt (scale offset : ℚ) (c : Pt) : Pt :=
  (c.1 * scale + offset, c.2 * scale + offset)

/-- `transform_coords` on a ring. -/
def transformCoords (scale offset : ℚ) (coords : List Pt) : List Pt :=
  coords.map (transformPt scale offset)

/-- The edges of a drawn coordinate ring (PIL closes the ring). -/
def ringEdges (l : List Pt) : List (Pt × Pt) :=
  match l with
  | [] => []
  | a :: _ => l.zip (l.tail ++ [a])

/-- Does a horizontal ray from `p` cross the edge `e`? -/
def edgeCrosses (p : Pt) (e : Pt × Pt) : Bool :=
  if (e.1.2 ≤ p.2 ∧ p.2 < e.2.2) ∨ (e.2.2 ≤ p.2 ∧ p.2 < e.1.2) then
    if p.1 < e.1.1 + (p.2 - e.1.2) * (e.2.1 - e.1.1) / (e.2.2 - e.1.2) then true
    else false
  else false

/-- Even-odd point-in-polygon test: the model of which pixels
`ImageDraw.polygon` covers. -/
def insidePoly (pts : List Pt) (p : Pt) : Bool :=
  ((ringEdges pts).countP (edgeCrosses p)) % 2 == 1

/-- The sample point of a pixel. -/
def pixelPt (q : ℕ × ℕ) : Pt := ((q.1 : ℚ), (q.2 : ℚ))

/-- `draw.polygon(xy, fill=v, outline=v)`: set every covered pixel to `v`. -/
def fillPoly (pts : List Pt) (v : ℕ) (img : Img) : Img :=
  fun q => if insidePoly pts (pixelPt q) = true then v else img q

/-- Draw a list of value-tagged rings in order, aborting (but keeping the
fills already applied) at the first ring with fewer than two coordinates —
the model of the `try/except` around one polygon's drawing (lines 49-62). -/
def drawRings (img : Img) : List (List Pt × ℕ) → Img
  | [] => img
  | (pts, v) :: rest =>
    if pts.length < 2 then img else drawRings (fillPoly pts v img) rest

/-- Drawing one polygon (lines 44-62): skip empty parts, draw the
transformed exterior with fill 255, then each transformed interior-hole
ring with fill 0. -/
def drawPolygon (d : ℚ) (res : ℕ) (img : Img) (p : Polygon) : Img :=
  if p.isEmpty = true then img
  else
    drawRings img
      ((transformCoords (rasterScale d res) (rasterOffset res) p.exterior, 255) ::
        p.interiors.map fun i => (transformCoords (rasterScale d res) (rasterOffset res) i, 0))

/-- `rasterize_polygon_to_png` (lines 5-64): a `Polygon` is drawn as a
one-part list, a `MultiPolygon` part by part, and any other geometry type
returns the blank image. -/
def rasterize_polygon_to_png (g : Geometry) (d : ℚ) (res : ℕ) : Img :=
  match g with
  | .poly p => drawPolygon d res blankImage p
  | .multi ps => ps.foldl (drawPolygon d res) blankImage
  | .other => blankImage

theorem drawRings_holes (is : List (List Pt)) (img : Img) (q : ℕ × ℕ)
    (hlen : ∀ i ∈ is, 2 ≤ i.length) :
    drawRings img (is.map fun i => (i, 0)) q =
      if ∃ i ∈ is, insidePoly i (pixelPt q) = true then 0 else img q := by
  induction is generalizing img with
  | nil => simp [drawRings]
  | cons i is ih =>
    have hi : ¬(i.length < 2) := by
      have := hlen i (List.mem_cons_self _ _)
      omega
    simp only [List.map_cons, drawRings, if_neg hi]
    rw [ih _ (fun j hj => hlen j (List.mem_cons_of_mem _ hj))]
    by_cases hin : ∃ j ∈ is, insidePoly j (pixelPt q) = true
    · rw [if_pos hin, if_pos]
      rcases hin with ⟨j, hj, hjq⟩
      exact ⟨j, List.mem_cons_of_mem _ hj, hjq⟩
    · rw [if_neg hin]
      by_cases hqi : insidePoly i (pixelPt q) = true
      · rw [if_pos ⟨i, List.mem_cons_self _ _, hqi⟩]
        simp [fillPoly, hqi]
      · rw [if_neg (by
          rintro ⟨j, hj, hjq⟩
          rcases List.mem_cons.mp hj with rfl | hj2
          · exact hqi hjq
          · exact hin ⟨j, hj2, hjq⟩)]
        simp [fillPoly, hqi]

theorem drawPolygon_eq (d : ℚ) (res : ℕ) (p : Polygon) (img : Img) (q : ℕ × ℕ)
    (hext : 2 ≤ p.exterior.length) (hints : ∀ i ∈ p.interiors, 2 ≤ i.length) :
    drawPolygon d res img p q =
      if ∃ i ∈ p.interiors,
          insidePoly (transformCoords (rasterScale d res) (rasterOffset res) i)
            (pixelPt q) = true then 0
      else if insidePoly (transformCoords (rasterScale d res) (rasterOffset res) p.exterior)
          (pixelPt q) = true then 255
      else img q := by
  have hne : ¬(p.isEmpty = true) := by
    unfold Polygon.isEmpty
    rcases hl : p.exterior with - | ⟨a, t⟩
    · rw [hl] at hext; simp at hext
    · simp
  unfold drawPolygon
  rw [if_neg hne]
  have hextlen : ¬((transformCoords (rasterScale d res) (rasterOffset res)
      p.exterior).length < 2) := by
    simp only [transformCoords, List.length_map]
    omega
  simp only [drawRings, if_neg hextlen]
  have hmapmap : (p.interiors.map fun i =>
      (transformCoords (rasterScale d res) (rasterOffset res) i, 0)) =
      ((p.interiors.map
        (transformCoords (rasterScale d res) (rasterOffset res))).map fun j => (j, (0 : ℕ))) := by
    rw [List.map_map]
    rfl
  rw [hmapmap, drawRings_holes _ _ _ (by
    intro j hj
    rcases List.mem_map.mp hj with ⟨i, hi, rfl⟩
    simpa only [transformCoords, List.length_map] using hints i hi)]
  by_cases hin : ∃ i ∈ p.interiors,
      insidePoly (transformCoords (rasterScale d res) (rasterOffset res) i) (pixelPt q) = true
  · rw [if_pos, if_pos hin]
    rcases hin with ⟨i, hi, hiq⟩
    exact ⟨_, List.mem_map.mpr ⟨i, hi, rfl⟩, hiq⟩
  · rw [if_neg (by
      rintro ⟨j, hj, hjq⟩
      rcases List.mem_map.mp hj with ⟨i, hi, rfl⟩
      exact hin ⟨i, hi, hjq⟩), if_neg hin]
    simp [fillPoly]

/-- C9: the rasterizer maps each ring vertex `(x, y)` in millimeters to the
pixel coordinates `(x * (res/2)/(d/2) + res/2, y * (res/2)/(d/2) + res/2)`,
fills the exterior ring with 255 and then fills each interior-hole ring
with 0, so a pixel inside a hole ends up background (0) and a pixel inside
the exterior but in no hole ends up foreground (255). -/
theorem rasterizer_transform_and_holes (d : ℚ) (res : ℕ) (p : Polygon) (img : Img)
    (q : ℕ × ℕ) (hext : 2 ≤ p.exterior.length)
    (hints : ∀ i ∈ p.interiors, 2 ≤ i.length) :
    (∀ x y : ℚ, transformPt (rasterScale d res) (rasterOffset res) (x, y) =
        (x * (((res : ℚ) / 2) / (d / 2)) + (res : ℚ) / 2,
          y * (((res : ℚ) / 2) / (d / 2)) + (res : ℚ) / 2)) ∧
    ((∃ i ∈ p.interiors,
        insidePoly (transformCoords (rasterScale d res) (rasterOffset res) i)
          (pixelPt q) = true) →
      drawPolygon d res img p q = 0) ∧
    ((insidePoly (transformCoords (rasterScale d res) (rasterOffset res) p.exterior)
          (pixelPt q) = true ∧
        ¬∃ i ∈ p.interiors,
          insidePoly (transformCoords (rasterScale d res) (rasterOffset res) i)
            (pixelPt q) = true) →
      drawPolygon d res img p q = 255) := by
  refine ⟨fun x y => rfl, ?_, ?_⟩
  · intro hin
    rw [drawPolygon_eq d res p img q hext hints, if_pos hin]
  · rintro ⟨hext2, hin⟩
    rw [drawPolygon_eq d res p img q hext hints, if_neg hin, if_pos hext2]

/-- A 10x10 square with a 2x2 hole, used to witness the rasterizer claims. -/
def donutExt : List Pt := [(0, 0), (10, 0), (10, 10), (0, 10), (0, 0)]

/-- The hole ring of the donut test polygon. -/
def donutHole : List Pt := [(4, 4), (6, 4), (6, 6), (4, 6), (4, 4)]

/-- The donut test polygon. -/
def donutPolygon : Polygon := ⟨donutExt, [donutHole]⟩

/-- Witness for C9: the donut polygon at diameter 16, resolution 16 (scale
1, offset 8), sampled at pixel `(13, 13)` (inside the transformed hole). -/
theorem rasterizer_transform_and_holes_witness :
    (∀ x y : ℚ, transformPt (rasterScale 16 16) (rasterOffset 16) (x, y) =
        (x * (((16 : ℚ) / 2) / ((16 : ℚ) / 2)) + (16 : ℚ) / 2,
          y * (((16 : ℚ) / 2) / ((16 : ℚ) / 2)) + (16 : ℚ) / 2)) ∧
    ((∃ i ∈ donutPolygon.interiors,
        insidePoly (transformCoords (rasterScale 16 16) (rasterOffset 16) i)
          (pixelPt (13, 13)) = true) →
      drawPolygon 16 16 blankImage donutPolygon (13, 13) = 0) ∧
    ((insidePoly (transformCoords (rasterScale 16 16) (rasterOffset 16) donutPolygon.exterior)
          (pixelPt (13, 13)) = true ∧
        ¬∃ i ∈ donutPolygon.interiors,
          insidePoly (transformCoords (rasterScale 16 16) (rasterOffset 16) i)
            (pixelPt (13, 13)) = true) →
      drawPolygon 16 16 blankImage donutPolygon (13, 13) = 255) :=
  rasterizer_transform_and_holes 16 16 donutPolygon blankImage (13, 13)
    (by norm_num [donutPolygon, donutExt])
    (by norm_num [donutPolygon, donutHole])

/-- C10: the rasterizer is total — an input that is neither a `Polygon` nor
a `MultiPolygon` yields the all-zero (all-background) image, and a part
whose drawing fails (empty, or an exterior PIL cannot draw) is skipped
while all remaining parts are still rendered. -/
theorem rasterizer_edge_cases (d : ℚ) (res : ℕ) (q : ℕ × ℕ) (ps1 ps2 : List Polygon)
    (bad : Polygon)
    (hbad : bad.isEmpty = true ∨
      (transformCoords (rasterScale d res) (rasterOffset res) bad.exterior).length < 2) :
    rasterize_polygon_to_png Geometry.other d res q = 0 ∧
    rasterize_polygon_to_png (Geometry.multi (ps1 ++ bad :: ps2)) d res =
      rasterize_polygon_to_png (Geometry.multi (ps1 ++ ps2)) d res := by
  constructor
  · rfl
  · show (ps1 ++ bad :: ps2).foldl (drawPolygon d res) blankImage =
      (ps1 ++ ps2).foldl (drawPolygon d res) blankImage
    rw [List.foldl_append, List.foldl_append, List.foldl_cons]
    have hskip : drawPolygon d res (ps1.foldl (drawPolygon d res) blankImage) bad =
        ps1.foldl (drawPolygon d res) blankImage := by
      unfold drawPolygon
      rcases hbad with hb | hb
      · rw [if_pos hb]
      · by_cases he : bad.isEmpty = true
        · rw [if_pos he]
        · rw [if_neg he]
          simp only [drawRings, if_pos hb]
    rw [hskip]

/-- Witness for C10: a one-point "polygon" between two copies of the donut
polygon is skipped and the image equals the one drawn without it. -/
theorem rasterizer_edge_cases_witness :
    rasterize_polygon_to_png Geometry.other 16 16 (0, 0) = 0 ∧
    rasterize_polygon_to_png
        (Geometry.multi ([donutPolygon] ++ (⟨[(1, 1)], []⟩ : Polygon) :: [donutPolygon]))
        16 16 =
      rasterize_polygon_to_png (Geometry.multi ([donutPolygon] ++ [donutPolygon])) 16 16 :=
  rasterizer_edge_cases 16 16 (0, 0) [donutPolygon] [donutPolygon] ⟨[(1, 1)], []⟩
    (Or.inr (by norm_num [transformCoords]))
